import Mathlib

/-!
Verification of the dihedral-constrained geometry-optimization driver
(`bin/opt.py`).  The script's own numeric code — the dihedral-angle
computation `calc_dihedral`, the achieved-angle normalization, the
constraint construction and the comment-line assembly — is embedded
below over the reals (Python floats are modelled as real numbers).
The external collaborators (the ASE `BFGS` optimizer together with the
ORB force-field calculator, and the string formatting of floats) are
modelled as opaque function parameters, exactly as the spec treats
them.  Python exceptions (`IndexError`) are modelled by `Option`:
`none` is an uncaught exception aborting the run.
-/

/-- A 3D point or vector: one row of the numpy position array. -/
@[ext]
structure Vec3 where
  x : ℝ
  y : ℝ
  z : ℝ

/-- Componentwise subtraction of numpy 3-vectors (`p2 - p1`). -/
def vsub (u v : Vec3) : Vec3 :=
  ⟨u.x - v.x, u.y - v.y, u.z - v.z⟩

/-- Componentwise negation (helper for the reversal lemmas). -/
def vneg (v : Vec3) : Vec3 :=
  ⟨-v.x, -v.y, -v.z⟩

/-- numpy dot product `np.dot` on 3-vectors. -/
def dot (u v : Vec3) : ℝ :=
  u.x * v.x + u.y * v.y + u.z * v.z

/-- numpy cross product `np.cross` on 3-vectors. -/
def cross (u v : Vec3) : Vec3 :=
  ⟨u.y * v.z - u.z * v.y, u.z * v.x - u.x * v.z, u.x * v.y - u.y * v.x⟩

/-- Euclidean norm `np.linalg.norm` of a 3-vector. -/
noncomputable def vnorm (v : Vec3) : ℝ :=
  Real.sqrt (dot v v)

/-- In-place division of a vector by its own norm (`n1 /= np.linalg.norm(n1)`). -/
noncomputable def vnormalize (v : Vec3) : Vec3 :=
  ⟨v.x / vnorm v, v.y / vnorm v, v.z / vnorm v⟩

/-- numpy `np.clip(t, lo, hi)`: `min(hi, max(t, lo))`. -/
noncomputable def clip (t lo hi : ℝ) : ℝ :=
  min (max t lo) hi

/-- numpy `np.sign`: 1 on positives, -1 on negatives, 0 at zero. -/
noncomputable def npsign (t : ℝ) : ℝ :=
  if 0 < t then 1 else if t < 0 then -1 else 0

/-- numpy `np.degrees`: radians to degrees. -/
noncomputable def degrees (t : ℝ) : ℝ :=
  t * (180 / Real.pi)

/-- Embedding of `calc_dihedral` (`bin/opt.py` lines 44-67): bond vectors,
plane normals, normalization, clipped arccos, sign from
`np.sign(np.dot(b2, np.cross(n1, n2)))` applied only when nonzero, and
conversion to degrees. -/
noncomputable def calc_dihedral (p1 p2 p3 p4 : Vec3) : ℝ :=
  let b1 := vsub p2 p1
  let b2 := vsub p3 p2
  let b3 := vsub p4 p3
  let n1 := vnormalize (cross b1 b2)
  let n2 := vnormalize (cross b2 b3)
  let cos_phi := clip (dot n1 n2) (-1) 1
  let phi := Real.arccos cos_phi
  let s := npsign (dot b2 (cross n1 n2))
  let phi2 := if s ≠ 0 then phi * s else phi
  degrees phi2

/-- The same computation taking the three bond vectors directly
(proof helper; `calc_dihedral` is definitionally this on
`p2 - p1`, `p3 - p2`, `p4 - p3`). -/
noncomputable def dihedralCore (b1 b2 b3 : Vec3) : ℝ :=
  let n1 := vnormalize (cross b1 b2)
  let n2 := vnormalize (cross b2 b3)
  let cos_phi := clip (dot n1 n2) (-1) 1
  let phi := Real.arccos cos_phi
  let s := npsign (dot b2 (cross n1 n2))
  let phi2 := if s ≠ 0 then phi * s else phi
  degrees phi2

/-- The dihedral computation as the spec words it (section 4.1): bond
vectors, unit plane normals, unsigned angle `arccos (clamp (n1 . n2))`,
signed by `sign (b2 . (n1 x n2))` when that sign is nonzero, converted
to degrees. -/
noncomputable def dihedral_angle_spec (p1 p2 p3 p4 : Vec3) : ℝ :=
  let b1 := vsub p2 p1
  let b2 := vsub p3 p2
  let b3 := vsub p4 p3
  let n1 := vnormalize (cross b1 b2)
  let n2 := vnormalize (cross b2 b3)
  let phi := Real.arccos (clip (dot n1 n2) (-1) 1)
  let s := npsign (dot b2 (cross n1 n2))
  degrees (if s = 0 then phi else s * phi)

/-- Embedding of `calc_dihedral` under IEEE float semantics with NaN made
explicit (`none` = NaN).  When a plane normal `n1 = b1 x b2` (or `n2`)
has zero norm it is the zero vector, so `n1 /= np.linalg.norm(n1)` is the
componentwise division `0.0 / 0.0 = NaN`; NaN then propagates through
`np.dot`, `np.clip`, `np.arccos`, `np.sign`, the multiplication
(`NaN != 0` is true in Python, so `phi` becomes `phi * NaN = NaN`) and
`np.degrees`, and the function returns NaN without raising any
exception.  With both norms nonzero every intermediate value is a finite
real and the result is `calc_dihedral`. -/
noncomputable def calc_dihedralN (p1 p2 p3 p4 : Vec3) : Option ℝ :=
  let b1 := vsub p2 p1
  let b2 := vsub p3 p2
  let b3 := vsub p4 p3
  if vnorm (cross b1 b2) = 0 ∨ vnorm (cross b2 b3) = 0 then none
  else some (calc_dihedral p1 p2 p3 p4)

/-- Python `x % m` for a positive real modulus `m` (floored modulo). -/
noncomputable def pymod (x m : ℝ) : ℝ :=
  x - m * ⌊x / m⌋

/-- Embedding of `bin/opt.py` lines 139-141: `actual_angle_deg % 360`,
then add 360 if the result is negative. -/
noncomputable def normalize_to_0_360 (x : ℝ) : ℝ :=
  let r := pymod x 360
  if r < 0 then r + 360 else r

/-- Python list indexing `l[i]` for an `int` index: nonnegative indices
are bounds-checked, negative indices wrap once from the end, anything
else raises `IndexError` (modelled as `none`). -/
def pyGet (l : List Vec3) (i : ℤ) : Option Vec3 :=
  if 0 ≤ i then l[i.toNat]?
  else if -(l.length : ℤ) ≤ i then l[((l.length : ℤ) + i).toNat]?
  else none

/-- Fetch the four atom positions `p[i], p[j], p[k], p[l]`, failing like
Python does (left to right) on the first out-of-range access. -/
def getQuad (pos : List Vec3) (i j k l : ℤ) :
    Option (Vec3 × Vec3 × Vec3 × Vec3) :=
  match pyGet pos i with
  | none => none
  | some q1 =>
    match pyGet pos j with
    | none => none
    | some q2 =>
      match pyGet pos k with
      | none => none
      | some q3 =>
        match pyGet pos l with
        | none => none
        | some q4 => some (q1, q2, q3, q4)

/-- The command-line arguments and input geometry of one run:
positions read from the XYZ file, `--charge`, `--spin`, the optional
four 1-based `--dihedral_indices` and the optional `--dihedral_angle`. -/
structure Args where
  positions : List Vec3
  charge : ℝ
  spin : ℝ
  dihedral_indices : Option (ℤ × ℤ × ℤ × ℤ)
  dihedral_angle : Option ℝ

/-- What one run produces: the `FixInternals` constraint applied to the
atoms (target angle in degrees and the four 0-based indices), the
`actual_angle_deg` variable, the output comment line, and the final
positions. -/
structure RunResult where
  constraintApplied : Option (ℝ × ℤ × ℤ × ℤ × ℤ)
  actual_angle_deg : Option ℝ
  comment : String
  finalPositions : List Vec3

/-- Embedding of the constraint-construction block (`bin/opt.py` lines
91-111): convert the 1-based indices to 0-based, take the target angle
from `--dihedral_angle` when given and otherwise from `calc_dihedral`
on the input positions, and build the `FixInternals` data.  The outer
`Option` is Python control flow (`none` = an uncaught exception), the
inner one is whether a constraint is applied at all. -/
noncomputable def setupConstraint (args : Args) :
    Option (Option (ℝ × ℤ × ℤ × ℤ × ℤ)) :=
  match args.dihedral_indices with
  | none => some none
  | some (i1, j1, k1, l1) =>
    match args.dihedral_angle with
    | some a => some (some (a, i1 - 1, j1 - 1, k1 - 1, l1 - 1))
    | none =>
      match getQuad args.positions (i1 - 1) (j1 - 1) (k1 - 1) (l1 - 1) with
      | none => none
      | some (q1, q2, q3, q4) =>
        some (some (calc_dihedral q1 q2 q3 q4, i1 - 1, j1 - 1, k1 - 1, l1 - 1))

/-- Embedding of the whole driver (`bin/opt.py` lines 91-161): decide
whether a constraint is active, pick the target angle, run the
optimizer (an opaque parameter, standing for BFGS + ORB, which receives
the constraint and the input positions), recompute the achieved angle
on the optimized positions and normalize it, and assemble the comment
line.  `energy` stands for `atoms.get_potential_energy()` on the final
positions; `fmt2`, `fmt6` and `fmtF` stand for Python's `.2f`, `.6f`
and default float formatting. -/
noncomputable def runOpt
    (optimize : Option (ℝ × ℤ × ℤ × ℤ × ℤ) → List Vec3 → List Vec3)
    (energy : List Vec3 → ℝ) (fmt2 fmt6 fmtF : ℝ → String)
    (args : Args) : Option RunResult :=
  match args.dihedral_indices with
  | none =>
    let pos2 := optimize none args.positions
    some ⟨none, none,
      "energy=" ++ fmt6 (energy pos2) ++ " eV charge=" ++ fmtF args.charge
        ++ " spin=" ++ fmtF args.spin,
      pos2⟩
  | some (i1, j1, k1, l1) =>
    let targetO : Option ℝ :=
      match args.dihedral_angle with
      | some a => some a
      | none =>
        match getQuad args.positions (i1 - 1) (j1 - 1) (k1 - 1) (l1 - 1) with
        | none => none
        | some (q1, q2, q3, q4) => some (calc_dihedral q1 q2 q3 q4)
    match targetO with
    | none => none
    | some target =>
      let constr := (target, i1 - 1, j1 - 1, k1 - 1, l1 - 1)
      let pos2 := optimize (some constr) args.positions
      match getQuad pos2 (i1 - 1) (j1 - 1) (k1 - 1) (l1 - 1) with
      | none => none
      | some (r1, r2, r3, r4) =>
        let actual := normalize_to_0_360 (calc_dihedral r1 r2 r3 r4)
        let source :=
          match args.dihedral_angle with
          | none => "fixed_current"
          | some _ => "user_specified"
        some ⟨some constr, some actual,
          "dihedral=" ++ toString i1 ++ "-" ++ toString j1 ++ "-"
            ++ toString k1 ++ "-" ++ toString l1
            ++ " actual_angle=" ++ fmt2 actual
            ++ " energy=" ++ fmt6 (energy pos2)
            ++ " eV charge=" ++ fmtF args.charge
            ++ " spin=" ++ fmtF args.spin
            ++ " constraint_source=" ++ source,
          pos2⟩

/-- Constant formatter standing in for a concrete float formatting
function in the witness runs. -/
def fmtConst (t : ℝ) : String :=
  "F"

/-- Identity optimizer used in the witness runs: returns the input
positions unchanged (a structure already at a force minimum). -/
def optId (c : Option (ℝ × ℤ × ℤ × ℤ × ℤ)) (p : List Vec3) : List Vec3 :=
  p

/-- Zero energy oracle used in the witness runs. -/
def energy0 (p : List Vec3) : ℝ :=
  0

/-! ### Modulo normalization lemmas -/

/-- Python `x % 360` written through the fractional part. -/
lemma pymod_360_eq_fract (x : ℝ) : pymod x 360 = 360 * Int.fract (x / 360) := by
  unfold pymod Int.fract
  have h360 : (360 : ℝ) ≠ 0 := by norm_num
  field_simp

lemma pymod_360_nonneg (x : ℝ) : 0 ≤ pymod x 360 := by
  rw [pymod_360_eq_fract]
  have := Int.fract_nonneg (x / 360)
  linarith

lemma pymod_360_lt (x : ℝ) : pymod x 360 < 360 := by
  rw [pymod_360_eq_fract]
  have := Int.fract_lt_one (x / 360)
  linarith

lemma normalize_to_0_360_eq (x : ℝ) : normalize_to_0_360 x = pymod x 360 := by
  unfold normalize_to_0_360
  rw [if_neg (not_lt.mpr (pymod_360_nonneg x))]

/-- C5: the normalize-to-[0,360) operation (`actual_angle_deg % 360`
followed by the negative correction, `bin/opt.py` lines 139-141) always
returns a value in [0, 360) that differs from its input by an integer
multiple of 360. -/
theorem normalize_to_0_360_range_congruence (x : ℝ) :
    0 ≤ normalize_to_0_360 x ∧ normalize_to_0_360 x < 360 ∧
      ∃ k : ℤ, normalize_to_0_360 x = x + 360 * k := by
  rw [normalize_to_0_360_eq]
  refine ⟨pymod_360_nonneg x, pymod_360_lt x, -⌊x / 360⌋, ?_⟩
  unfold pymod
  push_cast
  ring

/-- C9: the two-step achieved-angle normalization of `bin/opt.py` lines
139-141 equals plain Python `x % 360`, because the modulo result is
never negative, so the correction branch is unreachable. -/
theorem normalize_to_0_360_eq_plain_mod (x : ℝ) :
    normalize_to_0_360 x = pymod x 360 ∧ ¬ pymod x 360 < 0 := by
  exact ⟨normalize_to_0_360_eq x, not_lt.mpr (pymod_360_nonneg x)⟩

/-- C10: when `--dihedral_indices` is absent, the run is unconstrained
and a supplied `--dihedral_angle` has no effect on any output:
constraint activation depends only on the presence of the indices. -/
theorem indices_absent_means_unconstrained
    (optimize : Option (ℝ × ℤ × ℤ × ℤ × ℤ) → List Vec3 → List Vec3)
    (energy : List Vec3 → ℝ) (fmt2 fmt6 fmtF : ℝ → String)
    (pos : List Vec3) (charge spin a : ℝ) :
    runOpt optimize energy fmt2 fmt6 fmtF ⟨pos, charge, spin, none, some a⟩
        = runOpt optimize energy fmt2 fmt6 fmtF ⟨pos, charge, spin, none, none⟩
      ∧ runOpt optimize energy fmt2 fmt6 fmtF ⟨pos, charge, spin, none, some a⟩
        = some ⟨none, none,
            "energy=" ++ fmt6 (energy (optimize none pos)) ++ " eV charge="
              ++ fmtF charge ++ " spin=" ++ fmtF spin,
            optimize none pos⟩ := by
  exact ⟨rfl, rfl⟩

/-! ### Vector algebra helper lemmas -/

lemma dot_self_nonneg (v : Vec3) : 0 ≤ dot v v := by
  unfold dot
  nlinarith [mul_self_nonneg v.x, mul_self_nonneg v.y, mul_self_nonneg v.z]

lemma dot_comm (u v : Vec3) : dot u v = dot v u := by
  unfold dot
  ring

lemma dot_neg_neg (u v : Vec3) : dot (vneg u) (vneg v) = dot u v := by
  unfold dot vneg
  ring

lemma cross_neg_neg (u v : Vec3) : cross (vneg u) (vneg v) = cross u v := by
  unfold cross vneg
  refine Vec3.ext ?_ ?_ ?_ <;> dsimp <;> ring

lemma cross_antisymm (u v : Vec3) : cross u v = vneg (cross v u) := by
  unfold cross vneg
  refine Vec3.ext ?_ ?_ ?_ <;> dsimp <;> ring

lemma vsub_antisymm (u v : Vec3) : vsub u v = vneg (vsub v u) := by
  unfold vsub vneg
  refine Vec3.ext ?_ ?_ ?_ <;> dsimp <;> ring

lemma vnorm_neg (v : Vec3) : vnorm (vneg v) = vnorm v := by
  unfold vnorm
  rw [dot_neg_neg]

lemma vnormalize_neg (v : Vec3) : vnormalize (vneg v) = vneg (vnormalize v) := by
  unfold vnormalize
  rw [vnorm_neg]
  refine Vec3.ext ?_ ?_ ?_ <;> dsimp [vneg] <;> ring

/-- Lagrange's identity in dimension 3, a polynomial identity relating
the dot and cross products. -/
lemma lagrange_identity (u v : Vec3) :
    dot u v * dot u v + dot (cross u v) (cross u v) = dot u u * dot v v := by
  unfold dot cross
  ring

lemma vnorm_ne_zero_iff (v : Vec3) : vnorm v ≠ 0 ↔ dot v v ≠ 0 := by
  unfold vnorm
  rw [not_iff_not]
  exact Real.sqrt_eq_zero (dot_self_nonneg v)

/-- Dividing a vector with nonzero norm by its norm yields a unit vector. -/
lemma dot_vnormalize_self (v : Vec3) (h : vnorm v ≠ 0) :
    dot (vnormalize v) (vnormalize v) = 1 := by
  have hd : dot v v ≠ 0 := (vnorm_ne_zero_iff v).mp h
  have hs : vnorm v * vnorm v = dot v v := Real.mul_self_sqrt (dot_self_nonneg v)
  unfold vnormalize dot at *
  field_simp
  nlinarith [hs]

lemma clip_eq_self (t : ℝ) (h1 : -1 ≤ t) (h2 : t ≤ 1) : clip t (-1) 1 = t := by
  unfold clip
  rw [max_eq_left h1, min_eq_left h2]

/-- Cauchy-Schwarz for unit 3-vectors, via Lagrange's identity. -/
lemma cs_bound (u v : Vec3) (hu : dot u u = 1) (hv : dot v v = 1) :
    -1 ≤ dot u v ∧ dot u v ≤ 1 := by
  have h := lagrange_identity u v
  have hc := dot_self_nonneg (cross u v)
  constructor <;> nlinarith

/-- Strict Cauchy-Schwarz: a nonvanishing cross product forces the dot
product of unit vectors strictly above -1. -/
lemma neg_one_lt_dot (u v : Vec3) (hu : dot u u = 1) (hv : dot v v = 1)
    (hc : dot (cross u v) (cross u v) ≠ 0) : -1 < dot u v := by
  have h := lagrange_identity u v
  have hc0 := dot_self_nonneg (cross u v)
  have hcpos : 0 < dot (cross u v) (cross u v) := lt_of_le_of_ne hc0 (Ne.symm hc)
  nlinarith

/-- If a vector has nonzero dot product with `c`, then `c` is not the
zero vector (its self dot product is nonzero). -/
lemma dot_cross_ne_zero (w c : Vec3) (h : dot w c ≠ 0) : dot c c ≠ 0 := by
  intro h0
  apply h
  have hl := lagrange_identity w c
  have hcc := dot_self_nonneg (cross w c)
  rw [h0, mul_zero] at hl
  have h1 : dot w c * dot w c ≤ 0 := by linarith
  exact mul_self_eq_zero.mp (le_antisymm h1 (mul_self_nonneg _))

lemma arccos_lt_pi_of (x : ℝ) (h : -1 < x) : Real.arccos x < Real.pi := by
  refine lt_of_le_of_ne (Real.arccos_le_pi x) fun he => ?_
  exact absurd (Real.arccos_eq_pi.mp he) (not_le.mpr h)

lemma npsign_pos (t : ℝ) (h : 0 < t) : npsign t = 1 := by
  unfold npsign
  rw [if_pos h]

lemma npsign_neg (t : ℝ) (h : t < 0) : npsign t = -1 := by
  unfold npsign
  rw [if_neg (not_lt.mpr h.le), if_pos h]

lemma npsign_eq_zero (t : ℝ) (h : t = 0) : npsign t = 0 := by
  unfold npsign
  rw [h]
  norm_num

/-- Range of the signed-and-converted angle: given the cosine argument
`d` in [-1, 1], strict at -1 whenever the sign is negative, the value
`degrees (sign-adjusted arccos)` lies in (-180, 180]. -/
lemma signed_angle_range (d t : ℝ) (hd1 : -1 ≤ d) (hd2 : d ≤ 1)
    (hstrict : t < 0 → -1 < d) :
    -180 < degrees (if npsign t ≠ 0 then Real.arccos (clip d (-1) 1) * npsign t
        else Real.arccos (clip d (-1) 1))
      ∧ degrees (if npsign t ≠ 0 then Real.arccos (clip d (-1) 1) * npsign t
        else Real.arccos (clip d (-1) 1)) ≤ 180 := by
  have hpi := Real.pi_pos
  have hr : 0 < 180 / Real.pi := by positivity
  have h180 : Real.pi * (180 / Real.pi) = 180 := by field_simp
  rw [clip_eq_self d hd1 hd2]
  have hp0 : 0 ≤ Real.arccos d := Real.arccos_nonneg d
  have hppi : Real.arccos d ≤ Real.pi := Real.arccos_le_pi d
  have hub : Real.arccos d * (180 / Real.pi) ≤ 180 := by
    have := mul_le_mul_of_nonneg_right hppi hr.le
    linarith
  have hlb : 0 ≤ Real.arccos d * (180 / Real.pi) := mul_nonneg hp0 hr.le
  unfold degrees
  rcases lt_trichotomy t 0 with hneg | hzero | hpos
  · rw [npsign_neg t hneg, if_pos (by norm_num : (-1 : ℝ) ≠ 0)]
    have hst : -1 < d := hstrict hneg
    have hlt : Real.arccos d < Real.pi := arccos_lt_pi_of d hst
    have hublt : Real.arccos d * (180 / Real.pi) < 180 := by
      have := mul_lt_mul_of_pos_right hlt hr
      linarith
    constructor <;> nlinarith
  · rw [npsign_eq_zero t hzero, if_neg (by norm_num : ¬((0 : ℝ) ≠ 0))]
    constructor <;> linarith
  · rw [npsign_pos t hpos, if_pos (by norm_num : (1 : ℝ) ≠ 0)]
    constructor <;> nlinarith

lemma calc_dihedral_eq_core (p1 p2 p3 p4 : Vec3) :
    calc_dihedral p1 p2 p3 p4
      = dihedralCore (vsub p2 p1) (vsub p3 p2) (vsub p4 p3) := rfl

/-- The dihedral value computed from nondegenerate bond vectors lies in
the half-open interval (-180, 180]. -/
lemma dihedralCore_range (b1 b2 b3 : Vec3)
    (h1 : vnorm (cross b1 b2) ≠ 0) (h2 : vnorm (cross b2 b3) ≠ 0) :
    -180 < dihedralCore b1 b2 b3 ∧ dihedralCore b1 b2 b3 ≤ 180 := by
  have hu1 := dot_vnormalize_self _ h1
  have hu2 := dot_vnormalize_self _ h2
  have hd := cs_bound (vnormalize (cross b1 b2)) (vnormalize (cross b2 b3)) hu1 hu2
  have hstrict :
      dot b2 (cross (vnormalize (cross b1 b2)) (vnormalize (cross b2 b3))) < 0 →
        -1 < dot (vnormalize (cross b1 b2)) (vnormalize (cross b2 b3)) := by
    intro ht
    have hcc := dot_cross_ne_zero b2 _ (ne_of_lt ht)
    exact neg_one_lt_dot _ _ hu1 hu2 hcc
  simp only [dihedralCore]
  exact signed_angle_range _ _ hd.1 hd.2 hstrict

/-- Negating all three bond vectors and reversing their order leaves the
dihedral computation unchanged. -/
lemma dihedralCore_rev (b1 b2 b3 : Vec3) :
    dihedralCore (vneg b3) (vneg b2) (vneg b1) = dihedralCore b1 b2 b3 := by
  simp only [dihedralCore]
  rw [cross_neg_neg b3 b2, cross_neg_neg b2 b1,
    cross_antisymm b3 b2, cross_antisymm b2 b1,
    vnormalize_neg (cross b2 b3), vnormalize_neg (cross b1 b2),
    dot_neg_neg (vnormalize (cross b2 b3)) (vnormalize (cross b1 b2)),
    dot_comm (vnormalize (cross b2 b3)) (vnormalize (cross b1 b2)),
    cross_neg_neg (vnormalize (cross b2 b3)) (vnormalize (cross b1 b2)),
    cross_antisymm (vnormalize (cross b2 b3)) (vnormalize (cross b1 b2)),
    dot_neg_neg b2 (cross (vnormalize (cross b1 b2)) (vnormalize (cross b2 b3)))]

/-- C7 (amended): `calc_dihedral` is invariant under reversal of the
point order — `(p4, p3, p2, p1)` gives the same signed angle as
`(p1, p2, p3, p4)`, not its negation. -/
theorem calc_dihedral_reversal_invariant (p1 p2 p3 p4 : Vec3) :
    calc_dihedral p4 p3 p2 p1 = calc_dihedral p1 p2 p3 p4 := by
  rw [calc_dihedral_eq_core p4 p3 p2 p1, calc_dihedral_eq_core p1 p2 p3 p4,
    vsub_antisymm p3 p4, vsub_antisymm p2 p3, vsub_antisymm p1 p2,
    dihedralCore_rev]

/-- Concrete evaluation: the bond vectors of the forward point order
(1,0,0), (0,0,0), (0,1,0), (0,1,1) give the angle -90. -/
lemma core_eval_fwd : dihedralCore ⟨-1,0,0⟩ ⟨0,1,0⟩ ⟨0,0,1⟩ = -90 := by
  have hc1 : cross ⟨-1,0,0⟩ ⟨0,1,0⟩ = (⟨0,0,-1⟩ : Vec3) := by
    unfold cross
    norm_num
  have hc2 : cross ⟨0,1,0⟩ ⟨0,0,1⟩ = (⟨1,0,0⟩ : Vec3) := by
    unfold cross
    norm_num
  have hn1 : vnormalize ⟨0,0,-1⟩ = (⟨0,0,-1⟩ : Vec3) := by
    unfold vnormalize vnorm dot
    norm_num [Real.sqrt_one]
  have hn2 : vnormalize ⟨1,0,0⟩ = (⟨1,0,0⟩ : Vec3) := by
    unfold vnormalize vnorm dot
    norm_num [Real.sqrt_one]
  have hd : dot ⟨0,0,-1⟩ ⟨1,0,0⟩ = 0 := by
    unfold dot
    norm_num
  have hcn : cross ⟨0,0,-1⟩ ⟨1,0,0⟩ = (⟨0,-1,0⟩ : Vec3) := by
    unfold cross
    norm_num
  have hdb : dot ⟨0,1,0⟩ ⟨0,-1,0⟩ = (-1 : ℝ) := by
    unfold dot
    norm_num
  have hclip : clip 0 (-1) 1 = 0 := clip_eq_self 0 (by norm_num) (by norm_num)
  simp only [dihedralCore, hc1, hc2, hn1, hn2, hd, hcn, hdb, hclip,
    Real.arccos_zero, npsign_neg (-1 : ℝ) (by norm_num),
    if_pos (by norm_num : (-1 : ℝ) ≠ 0)]
  unfold degrees
  have hπ := Real.pi_ne_zero
  field_simp
  ring

/-- Concrete evaluation: the bond vectors of the reversed point order
(0,1,1), (0,1,0), (0,0,0), (1,0,0) also give the angle -90. -/
lemma core_eval_rev : dihedralCore ⟨0,0,-1⟩ ⟨0,-1,0⟩ ⟨1,0,0⟩ = -90 := by
  have hc1 : cross ⟨0,0,-1⟩ ⟨0,-1,0⟩ = (⟨-1,0,0⟩ : Vec3) := by
    unfold cross
    norm_num
  have hc2 : cross ⟨0,-1,0⟩ ⟨1,0,0⟩ = (⟨0,0,1⟩ : Vec3) := by
    unfold cross
    norm_num
  have hn1 : vnormalize ⟨-1,0,0⟩ = (⟨-1,0,0⟩ : Vec3) := by
    unfold vnormalize vnorm dot
    norm_num [Real.sqrt_one]
  have hn2 : vnormalize ⟨0,0,1⟩ = (⟨0,0,1⟩ : Vec3) := by
    unfold vnormalize vnorm dot
    norm_num [Real.sqrt_one]
  have hd : dot ⟨-1,0,0⟩ ⟨0,0,1⟩ = 0 := by
    unfold dot
    norm_num
  have hcn : cross ⟨-1,0,0⟩ ⟨0,0,1⟩ = (⟨0,1,0⟩ : Vec3) := by
    unfold cross
    norm_num
  have hdb : dot ⟨0,-1,0⟩ ⟨0,1,0⟩ = (-1 : ℝ) := by
    unfold dot
    norm_num
  have hclip : clip 0 (-1) 1 = 0 := clip_eq_self 0 (by norm_num) (by norm_num)
  simp only [dihedralCore, hc1, hc2, hn1, hn2, hd, hcn, hdb, hclip,
    Real.arccos_zero, npsign_neg (-1 : ℝ) (by norm_num),
    if_pos (by norm_num : (-1 : ℝ) ≠ 0)]
  unfold degrees
  have hπ := Real.pi_ne_zero
  field_simp
  ring

/-- C7 (counterexample): on the points (1,0,0), (0,0,0), (0,1,0),
(0,1,1) the dihedral is -90, and on the reversed point order it is -90
again — the same value, not the claimed opposite sign. -/
theorem calc_dihedral_reversal_not_antisymmetric_cex :
    calc_dihedral ⟨1,0,0⟩ ⟨0,0,0⟩ ⟨0,1,0⟩ ⟨0,1,1⟩ = -90 ∧
      calc_dihedral ⟨0,1,1⟩ ⟨0,1,0⟩ ⟨0,0,0⟩ ⟨1,0,0⟩ = -90 ∧
      ¬ calc_dihedral ⟨0,1,1⟩ ⟨0,1,0⟩ ⟨0,0,0⟩ ⟨1,0,0⟩
          = -calc_dihedral ⟨1,0,0⟩ ⟨0,0,0⟩ ⟨0,1,0⟩ ⟨0,1,1⟩ := by
  have hs1 : vsub (⟨0,0,0⟩ : Vec3) ⟨1,0,0⟩ = (⟨-1,0,0⟩ : Vec3) := by
    unfold vsub
    norm_num
  have hs2 : vsub (⟨0,1,0⟩ : Vec3) ⟨0,0,0⟩ = (⟨0,1,0⟩ : Vec3) := by
    unfold vsub
    norm_num
  have hs3 : vsub (⟨0,1,1⟩ : Vec3) ⟨0,1,0⟩ = (⟨0,0,1⟩ : Vec3) := by
    unfold vsub
    norm_num
  have hs4 : vsub (⟨0,1,0⟩ : Vec3) ⟨0,1,1⟩ = (⟨0,0,-1⟩ : Vec3) := by
    unfold vsub
    norm_num
  have hs5 : vsub (⟨0,0,0⟩ : Vec3) ⟨0,1,0⟩ = (⟨0,-1,0⟩ : Vec3) := by
    unfold vsub
    norm_num
  have hs6 : vsub (⟨1,0,0⟩ : Vec3) ⟨0,0,0⟩ = (⟨1,0,0⟩ : Vec3) := by
    unfold vsub
    norm_num
  have h1 : calc_dihedral ⟨1,0,0⟩ ⟨0,0,0⟩ ⟨0,1,0⟩ ⟨0,1,1⟩ = -90 := by
    rw [calc_dihedral_eq_core, hs1, hs2, hs3, core_eval_fwd]
  have h2 : calc_dihedral ⟨0,1,1⟩ ⟨0,1,0⟩ ⟨0,0,0⟩ ⟨1,0,0⟩ = -90 := by
    rw [calc_dihedral_eq_core, hs4, hs5, hs6, core_eval_rev]
  refine ⟨h1, h2, ?_⟩
  rw [h1, h2]
  norm_num

/-- C3: on nondegenerate inputs (both plane normals have nonzero norm),
`calc_dihedral` computes exactly the algorithm the spec describes —
bond vectors, unit normals, clipped arccos, sign from
`b2 . (n1 x n2)` — and the returned angle in degrees lies in the
half-open range (-180, 180]. -/
theorem calc_dihedral_matches_spec_and_range (p1 p2 p3 p4 : Vec3)
    (h1 : vnorm (cross (vsub p2 p1) (vsub p3 p2)) ≠ 0)
    (h2 : vnorm (cross (vsub p3 p2) (vsub p4 p3)) ≠ 0) :
    calc_dihedral p1 p2 p3 p4 = dihedral_angle_spec p1 p2 p3 p4 ∧
      -180 < calc_dihedral p1 p2 p3 p4 ∧ calc_dihedral p1 p2 p3 p4 ≤ 180 := by
  constructor
  · simp only [calc_dihedral, dihedral_angle_spec]
    set s := npsign (dot (vsub p3 p2)
      (cross (vnormalize (cross (vsub p2 p1) (vsub p3 p2)))
        (vnormalize (cross (vsub p3 p2) (vsub p4 p3))))) with hs
    rcases eq_or_ne s 0 with h | h
    · rw [h]
      norm_num
    · rw [if_pos h, if_neg h]
      exact congrArg degrees (mul_comm _ _)
  · rw [calc_dihedral_eq_core]
    exact dihedralCore_range _ _ _ h1 h2

/-- C3 witness: the theorem applied to a concrete nondegenerate
configuration. -/
theorem calc_dihedral_matches_spec_and_range_witness :
    vnorm (cross (vsub ⟨0,0,0⟩ ⟨1,0,0⟩) (vsub ⟨0,1,0⟩ ⟨0,0,0⟩)) ≠ 0 ∧
      vnorm (cross (vsub ⟨0,1,0⟩ ⟨0,0,0⟩) (vsub ⟨0,1,1⟩ ⟨0,1,0⟩)) ≠ 0 ∧
      (calc_dihedral ⟨1,0,0⟩ ⟨0,0,0⟩ ⟨0,1,0⟩ ⟨0,1,1⟩
          = dihedral_angle_spec ⟨1,0,0⟩ ⟨0,0,0⟩ ⟨0,1,0⟩ ⟨0,1,1⟩ ∧
        -180 < calc_dihedral ⟨1,0,0⟩ ⟨0,0,0⟩ ⟨0,1,0⟩ ⟨0,1,1⟩ ∧
        calc_dihedral ⟨1,0,0⟩ ⟨0,0,0⟩ ⟨0,1,0⟩ ⟨0,1,1⟩ ≤ 180) := by
  have hw1 : vnorm (cross (vsub (⟨0,0,0⟩ : Vec3) ⟨1,0,0⟩)
      (vsub (⟨0,1,0⟩ : Vec3) ⟨0,0,0⟩)) ≠ 0 := by
    simp only [vsub, cross, vnorm, dot]
    norm_num [Real.sqrt_one]
  have hw2 : vnorm (cross (vsub (⟨0,1,0⟩ : Vec3) ⟨0,0,0⟩)
      (vsub (⟨0,1,1⟩ : Vec3) ⟨0,1,0⟩)) ≠ 0 := by
    simp only [vsub, cross, vnorm, dot]
    norm_num [Real.sqrt_one]
  exact ⟨hw1, hw2,
    calc_dihedral_matches_spec_and_range ⟨1,0,0⟩ ⟨0,0,0⟩ ⟨0,1,0⟩ ⟨0,1,1⟩ hw1 hw2⟩

/-- C1 (amended): on any input whose first or second plane normal has
zero norm (a collinear triplet), `calc_dihedral` raises no error — the
division by the zero norm goes through and the function returns NaN
(`none` in the NaN-tracking embedding). -/
theorem calc_dihedral_collinear_returns_nan (p1 p2 p3 p4 : Vec3)
    (h : vnorm (cross (vsub p2 p1) (vsub p3 p2)) = 0 ∨
      vnorm (cross (vsub p3 p2) (vsub p4 p3)) = 0) :
    calc_dihedralN p1 p2 p3 p4 = none := by
  simp only [calc_dihedralN]
  rw [if_pos h]

/-- C1 witness: the theorem applied to a concrete collinear triplet
(0,0,0), (1,0,0), (2,0,0). -/
theorem calc_dihedral_collinear_returns_nan_witness :
    (vnorm (cross (vsub ⟨1,0,0⟩ ⟨0,0,0⟩) (vsub ⟨2,0,0⟩ ⟨1,0,0⟩)) = 0 ∨
      vnorm (cross (vsub ⟨2,0,0⟩ ⟨1,0,0⟩) (vsub ⟨2,1,0⟩ ⟨2,0,0⟩)) = 0) ∧
      calc_dihedralN ⟨0,0,0⟩ ⟨1,0,0⟩ ⟨2,0,0⟩ ⟨2,1,0⟩ = none := by
  have hw : vnorm (cross (vsub (⟨1,0,0⟩ : Vec3) ⟨0,0,0⟩)
      (vsub (⟨2,0,0⟩ : Vec3) ⟨1,0,0⟩)) = 0 := by
    simp only [vsub, cross, vnorm, dot]
    norm_num [Real.sqrt_zero]
  exact ⟨Or.inl hw,
    calc_dihedral_collinear_returns_nan ⟨0,0,0⟩ ⟨1,0,0⟩ ⟨2,0,0⟩ ⟨2,1,0⟩ (Or.inl hw)⟩

/-- C1 (counterexample): the collinear input (0,0,0), (1,0,0), (2,0,0),
(3,1,0) makes the dihedral computation return NaN — no
`DegenerateGeometryError` is raised anywhere and the zero-norm division
is not detected, contrary to the claim. -/
theorem calc_dihedral_no_degenerate_error_cex :
    calc_dihedralN ⟨0,0,0⟩ ⟨1,0,0⟩ ⟨2,0,0⟩ ⟨3,1,0⟩ = none := by
  have hw : vnorm (cross (vsub (⟨1,0,0⟩ : Vec3) ⟨0,0,0⟩)
      (vsub (⟨2,0,0⟩ : Vec3) ⟨1,0,0⟩)) = 0 := by
    simp only [vsub, cross, vnorm, dot]
    norm_num [Real.sqrt_zero]
  simp only [calc_dihedralN]
  rw [if_pos (Or.inl hw)]

/-- C2 (counterexample): constraint construction performs no validation.
On a 3-atom structure, the out-of-bounds index 100 and the fully
duplicated indices (2,2,2,2) are both accepted when an explicit target
angle is given — no `InvalidIndexError` is raised and the run is not
aborted at construction. -/
theorem setupConstraint_accepts_invalid_indices_cex :
    setupConstraint ⟨[⟨0,0,0⟩, ⟨1,0,0⟩, ⟨0,1,0⟩], 0, 1, some (1, 2, 3, 100), some 90⟩
        = some (some (90, 0, 1, 2, 99))
      ∧ setupConstraint ⟨[⟨0,0,0⟩, ⟨1,0,0⟩, ⟨0,1,0⟩], 0, 1, some (2, 2, 2, 2), some 10⟩
        = some (some (10, 1, 1, 1, 1)) := by
  exact ⟨rfl, rfl⟩

/-- C2 (amended): the code validates nothing at constraint
construction.  With an explicit target angle the construction succeeds
for arbitrary indices (out of bounds or duplicated); without one, the
only failure is a generic `IndexError` when the current-angle
computation first accesses an out-of-range position — never an
`InvalidIndexError` check of bounds or distinctness. -/
theorem setupConstraint_no_validation (args : Args) (i1 j1 k1 l1 : ℤ) (a : ℝ)
    (hidx : args.dihedral_indices = some (i1, j1, k1, l1)) :
    (args.dihedral_angle = some a →
      setupConstraint args = some (some (a, i1 - 1, j1 - 1, k1 - 1, l1 - 1)))
    ∧ (args.dihedral_angle = none → pyGet args.positions (i1 - 1) = none →
      setupConstraint args = none) := by
  constructor
  · intro ha
    simp only [setupConstraint, hidx, ha]
  · intro ha hp
    simp only [setupConstraint, hidx, ha, getQuad, hp]

/-- C2 witness: the theorem applied to a 3-atom structure with the
out-of-bounds index 50 and an explicit angle. -/
theorem setupConstraint_no_validation_witness :
    (Args.mk [⟨0,0,0⟩, ⟨1,0,0⟩, ⟨0,1,0⟩] 0 1 (some (1, 2, 3, 50)) (some 45)).dihedral_angle
        = some 45
      ∧ setupConstraint ⟨[⟨0,0,0⟩, ⟨1,0,0⟩, ⟨0,1,0⟩], 0, 1, some (1, 2, 3, 50), some 45⟩
        = some (some (45, 0, 1, 2, 49)) := by
  refine ⟨rfl, ?_⟩
  exact (setupConstraint_no_validation
    ⟨[⟨0,0,0⟩, ⟨1,0,0⟩, ⟨0,1,0⟩], 0, 1, some (1, 2, 3, 50), some 45⟩
    1 2 3 50 45 rfl).1 rfl

/-- C4: when the four indices are given and `--dihedral_angle` is
absent, the constraint target equals the dihedral of the input geometry
(computed before optimization) and the comment reports
`constraint_source=fixed_current`; when an explicit angle is given, the
comment reports `constraint_source=user_specified`. -/
theorem target_angle_provenance
    (optimize : Option (ℝ × ℤ × ℤ × ℤ × ℤ) → List Vec3 → List Vec3)
    (energy : List Vec3 → ℝ) (fmt2 fmt6 fmtF : ℝ → String) (args : Args)
    (i1 j1 k1 l1 : ℤ)
    (hidx : args.dihedral_indices = some (i1, j1, k1, l1)) :
    (∀ q1 q2 q3 q4, args.dihedral_angle = none →
      getQuad args.positions (i1 - 1) (j1 - 1) (k1 - 1) (l1 - 1) = some (q1, q2, q3, q4) →
      ∀ r, runOpt optimize energy fmt2 fmt6 fmtF args = some r →
        r.constraintApplied
            = some (calc_dihedral q1 q2 q3 q4, i1 - 1, j1 - 1, k1 - 1, l1 - 1)
          ∧ ∃ s, r.comment = s ++ " constraint_source=" ++ "fixed_current")
    ∧ (∀ a, args.dihedral_angle = some a →
      ∀ r, runOpt optimize energy fmt2 fmt6 fmtF args = some r →
        r.constraintApplied = some (a, i1 - 1, j1 - 1, k1 - 1, l1 - 1)
          ∧ ∃ s, r.comment = s ++ " constraint_source=" ++ "user_specified") := by
  constructor
  · intro q1 q2 q3 q4 ha hq0 r hr
    cases hq : getQuad
        (optimize (some (calc_dihedral q1 q2 q3 q4, i1 - 1, j1 - 1, k1 - 1, l1 - 1))
          args.positions)
        (i1 - 1) (j1 - 1) (k1 - 1) (l1 - 1) with
    | none =>
      simp only [runOpt, hidx, ha, hq0, hq] at hr
      exact Option.noConfusion hr
    | some quad =>
      obtain ⟨r1, r2, r3, r4⟩ := quad
      simp only [runOpt, hidx, ha, hq0, hq, Option.some.injEq] at hr
      rcases hr with rfl
      exact ⟨rfl, ⟨_, rfl⟩⟩
  · intro a ha r hr
    cases hq : getQuad
        (optimize (some (a, i1 - 1, j1 - 1, k1 - 1, l1 - 1)) args.positions)
        (i1 - 1) (j1 - 1) (k1 - 1) (l1 - 1) with
    | none =>
      simp only [runOpt, hidx, ha, hq] at hr
      exact Option.noConfusion hr
    | some quad =>
      obtain ⟨r1, r2, r3, r4⟩ := quad
      simp only [runOpt, hidx, ha, hq, Option.some.injEq] at hr
      rcases hr with rfl
      exact ⟨rfl, ⟨_, rfl⟩⟩

lemma normalize_to_0_360_nonneg (x : ℝ) : 0 ≤ normalize_to_0_360 x := by
  rw [normalize_to_0_360_eq]
  exact pymod_360_nonneg x

lemma normalize_to_0_360_lt_360 (x : ℝ) : normalize_to_0_360 x < 360 := by
  rw [normalize_to_0_360_eq]
  exact pymod_360_lt x

/-- C6: a user-supplied target angle is handed to the `FixInternals`
constraint exactly as given, with no normalization into any canonical
range; only the achieved angle recomputed after optimization goes
through the [0, 360) normalization before being reported. -/
theorem user_target_passed_verbatim
    (optimize : Option (ℝ × ℤ × ℤ × ℤ × ℤ) → List Vec3 → List Vec3)
    (energy : List Vec3 → ℝ) (fmt2 fmt6 fmtF : ℝ → String) (args : Args)
    (i1 j1 k1 l1 : ℤ) (a : ℝ)
    (hidx : args.dihedral_indices = some (i1, j1, k1, l1))
    (ha : args.dihedral_angle = some a) :
    ∀ r, runOpt optimize energy fmt2 fmt6 fmtF args = some r →
      r.constraintApplied = some (a, i1 - 1, j1 - 1, k1 - 1, l1 - 1)
        ∧ ∃ r1 r2 r3 r4,
          getQuad r.finalPositions (i1 - 1) (j1 - 1) (k1 - 1) (l1 - 1)
              = some (r1, r2, r3, r4)
            ∧ r.actual_angle_deg
              = some (normalize_to_0_360 (calc_dihedral r1 r2 r3 r4)) := by
  intro r hr
  cases hq : getQuad
      (optimize (some (a, i1 - 1, j1 - 1, k1 - 1, l1 - 1)) args.positions)
      (i1 - 1) (j1 - 1) (k1 - 1) (l1 - 1) with
  | none =>
    simp only [runOpt, hidx, ha, hq] at hr
    exact Option.noConfusion hr
  | some quad =>
    obtain ⟨r1, r2, r3, r4⟩ := quad
    simp only [runOpt, hidx, ha, hq, Option.some.injEq] at hr
    rcases hr with rfl
    exact ⟨rfl, r1, r2, r3, r4, hq, rfl⟩

/-- C6 witness: the theorem applied to a run whose target 500 lies
outside every canonical range yet is stored verbatim. -/
theorem user_target_passed_verbatim_witness :
    (Args.mk [⟨0,0,0⟩, ⟨1,0,0⟩, ⟨1,1,0⟩, ⟨1,1,1⟩] 0 1 (some (1, 2, 3, 4))
        (some 500)).dihedral_angle = some 500
      ∧ ∃ r, runOpt optId energy0 fmtConst fmtConst fmtConst
          ⟨[⟨0,0,0⟩, ⟨1,0,0⟩, ⟨1,1,0⟩, ⟨1,1,1⟩], 0, 1, some (1, 2, 3, 4), some 500⟩
          = some r
        ∧ (r.constraintApplied = some (500, 1 - 1, 2 - 1, 3 - 1, 4 - 1)
          ∧ ∃ r1 r2 r3 r4,
            getQuad r.finalPositions (1 - 1) (2 - 1) (3 - 1) (4 - 1)
                = some (r1, r2, r3, r4)
              ∧ r.actual_angle_deg
                = some (normalize_to_0_360 (calc_dihedral r1 r2 r3 r4))) := by
  refine ⟨rfl, ?_⟩
  obtain ⟨r, hr⟩ : ∃ r, runOpt optId energy0 fmtConst fmtConst fmtConst
      ⟨[⟨0,0,0⟩, ⟨1,0,0⟩, ⟨1,1,0⟩, ⟨1,1,1⟩], 0, 1, some (1, 2, 3, 4), some 500⟩
      = some r := ⟨_, rfl⟩
  exact ⟨r, hr, user_target_passed_verbatim optId energy0 fmtConst fmtConst fmtConst
    _ 1 2 3 4 500 rfl rfl r hr⟩

/-- C4 witness: the theorem applied to a concrete freeze-current run. -/
theorem target_angle_provenance_witness :
    ∃ r, runOpt optId energy0 fmtConst fmtConst fmtConst
        ⟨[⟨0,0,0⟩, ⟨1,0,0⟩, ⟨1,1,0⟩, ⟨1,1,1⟩], 0, 1, some (1, 2, 3, 4), none⟩
        = some r
      ∧ (r.constraintApplied
          = some (calc_dihedral ⟨0,0,0⟩ ⟨1,0,0⟩ ⟨1,1,0⟩ ⟨1,1,1⟩,
              1 - 1, 2 - 1, 3 - 1, 4 - 1)
        ∧ ∃ s, r.comment = s ++ " constraint_source=" ++ "fixed_current") := by
  obtain ⟨r, hr⟩ : ∃ r, runOpt optId energy0 fmtConst fmtConst fmtConst
      ⟨[⟨0,0,0⟩, ⟨1,0,0⟩, ⟨1,1,0⟩, ⟨1,1,1⟩], 0, 1, some (1, 2, 3, 4), none⟩
      = some r := ⟨_, rfl⟩
  exact ⟨r, hr, (target_angle_provenance optId energy0 fmtConst fmtConst fmtConst
    ⟨[⟨0,0,0⟩, ⟨1,0,0⟩, ⟨1,1,0⟩, ⟨1,1,1⟩], 0, 1, some (1, 2, 3, 4), none⟩
    1 2 3 4 rfl).1 ⟨0,0,0⟩ ⟨1,0,0⟩ ⟨1,1,0⟩ ⟨1,1,1⟩ rfl rfl r hr⟩

/-- C8: the constrained comment line is exactly
`dihedral=i-j-k-l actual_angle=A energy=E eV charge=C spin=S
constraint_source=src` with the four 1-based indices as supplied, `A`
the achieved angle normalized into [0, 360), and `src` one of
`fixed_current` or `user_specified`; the unconstrained comment line is
exactly `energy=E eV charge=C spin=S`. -/
theorem comment_line_format
    (optimize : Option (ℝ × ℤ × ℤ × ℤ × ℤ) → List Vec3 → List Vec3)
    (energy : List Vec3 → ℝ) (fmt2 fmt6 fmtF : ℝ → String) (args : Args) :
    (∀ i1 j1 k1 l1, args.dihedral_indices = some (i1, j1, k1, l1) →
      ∀ r, runOpt optimize energy fmt2 fmt6 fmtF args = some r →
        ∃ A src, r.actual_angle_deg = some A ∧ 0 ≤ A ∧ A < 360
          ∧ (∃ r1 r2 r3 r4,
              getQuad r.finalPositions (i1 - 1) (j1 - 1) (k1 - 1) (l1 - 1)
                  = some (r1, r2, r3, r4)
                ∧ A = normalize_to_0_360 (calc_dihedral r1 r2 r3 r4))
          ∧ (src = "fixed_current" ∨ src = "user_specified")
          ∧ r.comment = "dihedral=" ++ toString i1 ++ "-" ++ toString j1 ++ "-"
              ++ toString k1 ++ "-" ++ toString l1
              ++ " actual_angle=" ++ fmt2 A
              ++ " energy=" ++ fmt6 (energy r.finalPositions)
              ++ " eV charge=" ++ fmtF args.charge
              ++ " spin=" ++ fmtF args.spin
              ++ " constraint_source=" ++ src)
    ∧ (args.dihedral_indices = none →
      ∀ r, runOpt optimize energy fmt2 fmt6 fmtF args = some r →
        r.comment = "energy=" ++ fmt6 (energy r.finalPositions)
          ++ " eV charge=" ++ fmtF args.charge ++ " spin=" ++ fmtF args.spin) := by
  constructor
  · intro i1 j1 k1 l1 hidx r hr
    rcases hangle : args.dihedral_angle with _ | a
    · cases hq0 : getQuad args.positions (i1 - 1) (j1 - 1) (k1 - 1) (l1 - 1) with
      | none =>
        simp only [runOpt, hidx, hangle, hq0] at hr
        exact Option.noConfusion hr
      | some quad0 =>
        obtain ⟨q1, q2, q3, q4⟩ := quad0
        cases hq : getQuad
            (optimize (some (calc_dihedral q1 q2 q3 q4, i1 - 1, j1 - 1, k1 - 1, l1 - 1))
              args.positions)
            (i1 - 1) (j1 - 1) (k1 - 1) (l1 - 1) with
        | none =>
          simp only [runOpt, hidx, hangle, hq0, hq] at hr
          exact Option.noConfusion hr
        | some quad =>
          obtain ⟨r1, r2, r3, r4⟩ := quad
          simp only [runOpt, hidx, hangle, hq0, hq, Option.some.injEq] at hr
          rcases hr with rfl
          exact ⟨normalize_to_0_360 (calc_dihedral r1 r2 r3 r4), "fixed_current",
            rfl, normalize_to_0_360_nonneg _, normalize_to_0_360_lt_360 _,
            ⟨r1, r2, r3, r4, hq, rfl⟩, Or.inl rfl, rfl⟩
    · cases hq : getQuad
          (optimize (some (a, i1 - 1, j1 - 1, k1 - 1, l1 - 1)) args.positions)
          (i1 - 1) (j1 - 1) (k1 - 1) (l1 - 1) with
      | none =>
        simp only [runOpt, hidx, hangle, hq] at hr
        exact Option.noConfusion hr
      | some quad =>
        obtain ⟨r1, r2, r3, r4⟩ := quad
        simp only [runOpt, hidx, hangle, hq, Option.some.injEq] at hr
        rcases hr with rfl
        exact ⟨normalize_to_0_360 (calc_dihedral r1 r2 r3 r4), "user_specified",
          rfl, normalize_to_0_360_nonneg _, normalize_to_0_360_lt_360 _,
          ⟨r1, r2, r3, r4, hq, rfl⟩, Or.inr rfl, rfl⟩
  · intro hidx r hr
    simp only [runOpt, hidx, Option.some.injEq] at hr
    rcases hr with rfl
    rfl

/-- C8 witness: the theorem applied to a concrete constrained run. -/
theorem comment_line_format_witness :
    ∃ r, runOpt optId energy0 fmtConst fmtConst fmtConst
        ⟨[⟨0,0,0⟩, ⟨1,0,0⟩, ⟨1,1,0⟩, ⟨1,1,1⟩], 0, 1, some (1, 2, 3, 4), some 90⟩
        = some r
      ∧ ∃ A src, r.actual_angle_deg = some A ∧ 0 ≤ A ∧ A < 360
        ∧ (∃ r1 r2 r3 r4,
            getQuad r.finalPositions (1 - 1) (2 - 1) (3 - 1) (4 - 1)
                = some (r1, r2, r3, r4)
              ∧ A = normalize_to_0_360 (calc_dihedral r1 r2 r3 r4))
        ∧ (src = "fixed_current" ∨ src = "user_specified")
        ∧ r.comment = "dihedral=" ++ toString (1 : ℤ) ++ "-" ++ toString (2 : ℤ) ++ "-"
            ++ toString (3 : ℤ) ++ "-" ++ toString (4 : ℤ)
            ++ " actual_angle=" ++ fmtConst A
            ++ " energy=" ++ fmtConst (energy0 r.finalPositions)
            ++ " eV charge=" ++ fmtConst 0
            ++ " spin=" ++ fmtConst 1
            ++ " constraint_source=" ++ src := by
  obtain ⟨r, hr⟩ : ∃ r, runOpt optId energy0 fmtConst fmtConst fmtConst
      ⟨[⟨0,0,0⟩, ⟨1,0,0⟩, ⟨1,1,0⟩, ⟨1,1,1⟩], 0, 1, some (1, 2, 3, 4), some 90⟩
      = some r := ⟨_, rfl⟩
  exact ⟨r, hr, (comment_line_format optId energy0 fmtConst fmtConst fmtConst
    ⟨[⟨0,0,0⟩, ⟨1,0,0⟩, ⟨1,1,0⟩, ⟨1,1,1⟩], 0, 1, some (1, 2, 3, 4), some 90⟩).1
    1 2 3 4 rfl r hr⟩

/-- C5 witness: the theorem applied at the concrete input -45. -/
theorem normalize_to_0_360_range_congruence_witness :
    0 ≤ normalize_to_0_360 (-45) ∧ normalize_to_0_360 (-45) < 360 ∧
      ∃ k : ℤ, normalize_to_0_360 (-45) = -45 + 360 * k :=
  normalize_to_0_360_range_congruence (-45)

/-- C9 witness: the theorem applied at the concrete input -45. -/
theorem normalize_to_0_360_eq_plain_mod_witness :
    normalize_to_0_360 (-45) = pymod (-45) 360 ∧ ¬ pymod (-45) 360 < 0 :=
  normalize_to_0_360_eq_plain_mod (-45)
